import Mathlib

/-!
Shallow embedding of the tic-tac-toe engine from `src/src/lib.rs`.

The Rust `Board` stores its cells in a `HashMap<u8, TileState>`; we model it
as an association list `List (Nat × TileState)`.  `HashMap::get` becomes
`List.lookup`; the `Entry::Occupied(e) => e.insert(..)` update (which can only
mutate the value of an existing key) becomes a `map` that rewrites the value
stored under the key and leaves every other entry — and the key set — intact.

Rust panics (`panic!("Undefined behavior")` on a vacant entry in `set_tile`,
and the `unwrap()` of the cell lookups in `get_winner`) are modelled by an
outer `Option`: `none` is a panic/abort, `some v` a normal result `v`.
-/

namespace Tictactoe

inductive Sign where
  | O
  | X
deriving DecidableEq, Repr, Fintype

/-- The `Display` impl for `Sign` renders `O`/`X`. -/
def Sign.label : Sign → String
  | Sign.O => "O"
  | Sign.X => "X"

inductive TileState where
  | Marked (sign : Sign)
  | Empty
deriving DecidableEq, Repr, Fintype

inductive GameState where
  | NotOver
  | Full
  | Won (sign : Sign)
deriving DecidableEq, Repr

structure Board where
  tiles : List (Nat × TileState)
deriving DecidableEq, Repr

/-- `self.tiles.get(&index)` on the backing map. -/
def Board.getTile (b : Board) (index : Nat) : Option TileState :=
  b.tiles.lookup index

/-- `entry.insert(v)` on an occupied entry: rewrite the value stored under
`index`, leaving all other entries (and the key set) unchanged.  If `index` is
absent this is a no-op, matching the fact that the occupied-entry API cannot
create keys. -/
def Board.update (b : Board) (index : Nat) (v : TileState) : Board :=
  ⟨b.tiles.map fun p => if p.1 = index then (index, v) else p⟩

/-- `Board::new`: `(1..=9).for_each(|i| tiles.insert(i, TileState::Empty))`. -/
def Board.new : Board :=
  ⟨(List.range 9).map fun i => (i + 1, TileState.Empty)⟩

/-- The invariant the spec states for every live board: the key set is
exactly {1,...,9}. -/
def Board.WF (b : Board) : Prop :=
  ∀ k, (b.getTile k).isSome ↔ (1 ≤ k ∧ k ≤ 9)

/-- Error string from `Board::set_tile`. -/
def tileAlreadyMarkedMsg : String :=
  "This tile is already marked. Please try another tile"

/-- `Board::set_tile`.  The Rust code matches on `self.tiles.entry(index)`:
an occupied `Empty` entry is overwritten with `Marked(sign)` and `Ok(index)`
is returned; an occupied `Marked` entry returns the already-marked error and
leaves the board untouched; a vacant entry is `panic!("Undefined behavior")`,
modelled as `none`. -/
def Board.set_tile (b : Board) (index : Nat) (sign : Sign) :
    Option (Except String Nat × Board) :=
  match b.getTile index with
  | some TileState.Empty =>
      some (Except.ok index, b.update index (TileState.Marked sign))
  | some (TileState.Marked _) =>
      some (Except.error tileAlreadyMarkedMsg, b)
  | none => none

/-- `Board::is_full`: `self.tiles.values().all(|v| matches!(v, Marked(_)))`. -/
def Board.is_full (b : Board) : Bool :=
  b.tiles.all fun p =>
    match p.2 with
    | TileState.Marked _ => true
    | TileState.Empty => false

/-- The `layouts` array of `Board::get_winner`, in source order. -/
def layouts : List (Nat × Nat × Nat) :=
  [(1, 2, 3), (4, 5, 6), (7, 8, 9),
   (1, 4, 7), (2, 5, 8), (3, 6, 9),
   (1, 5, 9), (3, 5, 7)]

/-- One iteration of the `for layout in layouts` loop body of
`Board::get_winner`: look the three cells up (the source `unwrap`s, so a
missing key is a panic, modelled by the outer `none`), and report
`some sign` when all three are marked with the same sign. -/
def Board.layoutWinner (b : Board) (t : Nat × Nat × Nat) :
    Option (Option Sign) :=
  match b.getTile t.1, b.getTile t.2.1, b.getTile t.2.2 with
  | some ts1, some ts2, some ts3 =>
      some (match ts1, ts2, ts3 with
            | TileState.Marked s1, TileState.Marked s2, TileState.Marked s3 =>
                if s1 = s2 ∧ s2 = s3 then some s1 else none
            | _, _, _ => none)
  | _, _, _ => none

/-- The `for` loop of `Board::get_winner`: return the first winning sign
(`return Some(*s1)`), continue otherwise, `None` after the loop. -/
def Board.getWinnerLoop (b : Board) : List (Nat × Nat × Nat) → Option (Option Sign)
  | [] => some none
  | t :: ts =>
      match b.layoutWinner t with
      | none => none
      | some (some s) => some (some s)
      | some none => b.getWinnerLoop ts

/-- `Board::get_winner` (outer `Option` = panic from an `unwrap` on a missing
key, impossible on well-formed boards). -/
def Board.get_winner (b : Board) : Option (Option Sign) :=
  b.getWinnerLoop layouts

/-- `Board::get_game_state`. -/
def Board.get_game_state (b : Board) : Option GameState :=
  match b.get_winner with
  | none => none
  | some (some winner) => some (GameState.Won winner)
  | some none =>
      some (if b.is_full then GameState.Full else GameState.NotOver)

/-- Error string from `validate_input`. -/
def invalidNumberMsg : String :=
  "Please enter a number between 1 and 9"

/-- `str::trim`, modelled charwise: drop whitespace from both ends.
`Char.isWhitespace` covers space, tab, carriage return and newline; Rust also
strips the remaining Unicode whitespace characters, which no claim
exercises.  (Lean's own `String.trim` computes the same result but does not
reduce inside the kernel, so the model works on the character list.) -/
def strTrim (s : String) : String :=
  ⟨((s.toList.dropWhile Char.isWhitespace).reverse.dropWhile
      Char.isWhitespace).reverse⟩

/-- The characters an unsigned-integer literal is made of: an optional
leading `+` is stripped, the rest must be decimal digits. -/
def numeralDigits (s : String) : List Char :=
  match s.toList with
  | '+' :: rest => rest
  | other => other

/-- Numeric value of a list of decimal digits. -/
def digitsVal (ds : List Char) : Nat :=
  ds.foldl (fun acc c => acc * 10 + (c.toNat - '0'.toNat)) 0

/-- `str::parse::<u8>` as in Rust's `u8: FromStr`: an optional leading `+`,
then at least one ASCII digit, with the resulting value at most 255;
everything else (including a leading `-`) is an error, modelled as `none`. -/
def parseU8 (s : String) : Option Nat :=
  let ds := numeralDigits s
  if ds ≠ [] ∧ ds.all Char.isDigit then
    if digitsVal ds ≤ 255 then some (digitsVal ds) else none
  else none

/-- `validate_input`: trim, parse as `u8`, accept exactly values in `1..=9`
(`(1..=9).contains(&n)`). -/
def validate_input (input : String) : Except String Nat :=
  match parseU8 (strTrim input) with
  | some n => if 1 ≤ n ∧ n ≤ 9 then Except.ok n else Except.error invalidNumberMsg
  | none => Except.error invalidNumberMsg

/-- The `Player` struct: an immutable pairing of a `Sign`. -/
structure Player where
  sign : Sign
deriving DecidableEq, Repr

/-- The two players `run` constructs: `[Player { sign: O }, Player { sign: X }]`. -/
def players : List Player :=
  [⟨Sign.O⟩, ⟨Sign.X⟩]

/-- The `Interface` trait.  The Rust methods take `&self` but real
implementations carry interior mutability (the test mock pops a `RefCell`
queue), so each operation is modelled as a deterministic state transformer on
the collaborator's own state `σ`.  `choose_first_player` receives the two
players and returns a reference into that slice, hence it is modelled as
returning one `Player`. -/
structure Interface (σ : Type) where
  choose_first_player : σ → Player × σ
  retrieve_input : σ → String → String × σ
  on_play : σ → Player → Nat → σ
  show_board : σ → Board → σ
  on_end : σ → GameState → σ

/-- The observable collaborator calls made by `run`, with their arguments
(and, for `retrieve_input`, the collaborator's reply). -/
inductive Event where
  | chooseFirstPlayer (result : Player)
  | retrieveInput (message : String) (result : String)
  | onPlay (player : Player) (index : Nat)
  | showBoard (board : Board)
  | onEnd (state : GameState)
deriving DecidableEq, Repr

/-- The prompt `player_moves` builds:
`format!("{}, please enter a tile number (1-9):", player.sign)`. -/
def turnPrompt (player : Player) : String :=
  player.sign.label ++ ", please enter a tile number (1-9):"

/-- `player_moves`: retrieve an input, run
`validate_input(&input).and_then(|i| board.set_tile(i, player.sign))`; on
`Ok(index)` notify `on_play` and stop, on `Err(e)` retrieve a fresh input
with `e` as the prompt and retry.  The Rust loop is unbounded, so the model
takes fuel: `none` means either fuel ran out before the turn completed or
`set_tile` panicked.  The result carries the played index, the new board, the
collaborator state, and the events of this turn in order. -/
def player_moves {σ : Type} (I : Interface σ) (player : Player) :
    Nat → Board → σ → String → Option (Nat × Board × σ × List Event)
  | 0, _, _, _ => none
  | fuel + 1, b, s, msg =>
      let rq := I.retrieve_input s msg
      match validate_input rq.1 with
      | Except.error e =>
          match player_moves I player fuel b rq.2 e with
          | none => none
          | some (idx, b2, s2, evs) =>
              some (idx, b2, s2, Event.retrieveInput msg rq.1 :: evs)
      | Except.ok i =>
          match b.set_tile i player.sign with
          | none => none
          | some (Except.error e, b1) =>
              match player_moves I player fuel b1 rq.2 e with
              | none => none
              | some (idx, b2, s2, evs) =>
                  some (idx, b2, s2, Event.retrieveInput msg rq.1 :: evs)
          | some (Except.ok idx, b1) =>
              some (idx, b1, I.on_play rq.2 player idx,
                    [Event.retrieveInput msg rq.1, Event.onPlay player idx])

/-- Which player moves next: the source looks the other player up in the
`players` array (`O => players[1], X => players[0]`). -/
def nextPlayer (current : Player) : Player :=
  match current.sign with
  | Sign.O => ⟨Sign.X⟩
  | Sign.X => ⟨Sign.O⟩

/-- The `while board.get_game_state() == GameState::NotOver` loop of `run`,
followed by the loop exit actions `on_end(board.get_game_state())` (the same
pure value the loop condition just computed) and a final `show_board`.
`none` means fuel ran out or a board operation panicked. -/
def runLoop {σ : Type} (I : Interface σ) :
    Nat → Player → Board → σ → Option (σ × List Event)
  | 0, _, _, _ => none
  | fuel + 1, current, b, s =>
      match b.get_game_state with
      | none => none
      | some gs =>
          if gs = GameState.NotOver then
            let s1 := I.show_board s b
            match player_moves I current fuel b s1 (turnPrompt current) with
            | none => none
            | some (_, b2, s2, evs) =>
                match runLoop I fuel (nextPlayer current) b2 s2 with
                | none => none
                | some (s3, evs2) =>
                    some (s3, (Event.showBoard b :: evs) ++ evs2)
          else
            let s1 := I.on_end s gs
            let s2 := I.show_board s1 b
            some (s2, [Event.onEnd gs, Event.showBoard b])

/-- `run`: build the players, let the collaborator choose who starts, start
from a fresh board and loop. -/
def run {σ : Type} (I : Interface σ) (fuel : Nat) (s : σ) :
    Option (σ × List Event) :=
  let c := I.choose_first_player s
  match runLoop I fuel c.1 Board.new c.2 with
  | none => none
  | some (s1, evs) => some (s1, Event.chooseFirstPlayer c.1 :: evs)

/-- State of the scripted collaborator used by the tests: a fixed first
player and a queue of canned inputs. -/
structure ScriptState where
  first : Player
  inputs : List String
deriving DecidableEq, Repr

/-- The scripted collaborator: `choose_first_player` returns the fixed
player, `retrieve_input` pops the next canned input (an empty queue yields
`""`, which never validates), and the notifications do not change the
state. -/
def scriptI : Interface ScriptState where
  choose_first_player := fun s => (s.first, s)
  retrieve_input := fun s _ =>
    match s.inputs with
    | [] => ("", s)
    | i :: rest => (i, ⟨s.first, rest⟩)
  on_play := fun s _ _ => s
  show_board := fun s _ => s
  on_end := fun s _ => s

/-- Number of `retrieve_input` calls recorded in a trace. -/
def retrieveCount (tr : List Event) : Nat :=
  tr.countP fun e =>
    match e with
    | Event.retrieveInput _ _ => true
    | _ => false

/-- The `on_end` arguments recorded in a trace, in order. -/
def onEndStates (tr : List Event) : List GameState :=
  tr.filterMap fun e =>
    match e with
    | Event.onEnd gs => some gs
    | _ => none

/-- True for an `onEnd` event. -/
def isOnEnd (e : Event) : Bool :=
  match e with
  | Event.onEnd _ => true
  | _ => false

/-- A sequence of `set_tile` calls, each applied to the board the previous
call produced (a failing call hands the board back unchanged); `none` as soon
as one call panics. -/
def applyMoves (b : Board) : List (Nat × Sign) → Option Board
  | [] => some b
  | m :: ms =>
      match b.set_tile m.1 m.2 with
      | none => none
      | some (_, b1) => applyMoves b1 ms

/-! Spec-side definitions, written from the words of the specification, to be
compared with the definitions translated from the source. -/

/-- Spec side (§4.1): the eight winning triples, "three rows, three columns,
two diagonals", in the listed order. -/
def winningTriples : List (Nat × Nat × Nat) :=
  [(1, 2, 3), (4, 5, 6), (7, 8, 9),
   (1, 4, 7), (2, 5, 8), (3, 6, 9),
   (1, 5, 9), (3, 5, 7)]

/-- Spec side: the three cells of a triple are all Marked with sign `s`. -/
def allMarkedWith (b : Board) (s : Sign) (t : Nat × Nat × Nat) : Bool :=
  (b.getTile t.1 == some (TileState.Marked s)) &&
  (b.getTile t.2.1 == some (TileState.Marked s)) &&
  (b.getTile t.2.2 == some (TileState.Marked s))

/-- Spec side: the win a single triple reports — the common sign when its
three cells are all Marked with that same sign. -/
def tripleSpecWin (b : Board) (t : Nat × Nat × Nat) : Option Sign :=
  if allMarkedWith b Sign.O t then some Sign.O
  else if allMarkedWith b Sign.X t then some Sign.X
  else none

/-- Spec side (§4.1 `get_winner`): the sign of the first listed triple whose
three cells are all Marked with that same sign; no winner otherwise. -/
def winnerSpec (b : Board) : Option Sign :=
  winningTriples.findSome? (tripleSpecWin b)

/-- All three indices of a triple are in the fixed key range. -/
def tripleInRange (t : Nat × Nat × Nat) : Prop :=
  (1 ≤ t.1 ∧ t.1 ≤ 9) ∧ (1 ≤ t.2.1 ∧ t.2.1 ≤ 9) ∧ (1 ≤ t.2.2 ∧ t.2.2 ≤ 9)

/-- Spec side (§4.2, amended): the trimmed text is an unsigned-integer
numeral — an optional leading `+` followed by at least one decimal digit —
and its numeric value is the result.  (No width bound: the range check to
`[1,9]` is applied separately.) -/
def numeralValue (s : String) : Option Nat :=
  let ds := numeralDigits s
  if ds ≠ [] ∧ ds.all Char.isDigit then some (digitsVal ds) else none

/-- Spec side (§4.3 steps 3–4): one attempt of a turn — validate the input
and, if valid, apply it to the board; both failure kinds surface only their
error message and leave the board unchanged.  `none` models the `set_tile`
panic. -/
def specAttempt (b : Board) (sign : Sign) (input : String) :
    Option (Except String (Nat × Board)) :=
  match validate_input input with
  | Except.error e => some (Except.error e)
  | Except.ok i =>
      match b.set_tile i sign with
      | none => none
      | some (Except.error e, _) => some (Except.error e)
      | some (Except.ok idx, b1) => some (Except.ok (idx, b1))

/-- Spec side (§4.3 steps 2–5): request an input, attempt it, and on failure
re-request with that failure's specific error message as the prompt,
repeating until a move succeeds — always retrying against the original,
unchanged board. -/
def specRetry {σ : Type} (I : Interface σ) (player : Player) :
    Nat → Board → σ → String → Option (Nat × Board × σ × List Event)
  | 0, _, _, _ => none
  | fuel + 1, b, s, msg =>
      let rq := I.retrieve_input s msg
      match specAttempt b player.sign rq.1 with
      | none => none
      | some (Except.error e) =>
          match specRetry I player fuel b rq.2 e with
          | none => none
          | some (idx, b2, s2, evs) =>
              some (idx, b2, s2, Event.retrieveInput msg rq.1 :: evs)
      | some (Except.ok (idx, b1)) =>
          some (idx, b1, I.on_play rq.2 player idx,
                [Event.retrieveInput msg rq.1, Event.onPlay player idx])

/-- Two collaborators are similar along `R` when, from `R`-related states,
they choose the same first player and answer every `retrieve_input` with the
same string, and every collaborator call keeps their states `R`-related. -/
def SimRel {σ1 σ2 : Type} (I1 : Interface σ1) (I2 : Interface σ2)
    (R : σ1 → σ2 → Prop) : Prop :=
  (∀ s1 s2, R s1 s2 →
      (I1.choose_first_player s1).1 = (I2.choose_first_player s2).1 ∧
      R (I1.choose_first_player s1).2 (I2.choose_first_player s2).2) ∧
  (∀ s1 s2 msg, R s1 s2 →
      (I1.retrieve_input s1 msg).1 = (I2.retrieve_input s2 msg).1 ∧
      R (I1.retrieve_input s1 msg).2 (I2.retrieve_input s2 msg).2) ∧
  (∀ s1 s2 p i, R s1 s2 → R (I1.on_play s1 p i) (I2.on_play s2 p i)) ∧
  (∀ s1 s2 b, R s1 s2 → R (I1.show_board s1 b) (I2.show_board s2 b)) ∧
  (∀ s1 s2 gs, R s1 s2 → R (I1.on_end s1 gs) (I2.on_end s2 gs))

instance : DecidableEq (Except String Nat) := fun a b =>
  match a, b with
  | Except.ok x, Except.ok y => decidable_of_iff (x = y) (by simp)
  | Except.error x, Except.error y => decidable_of_iff (x = y) (by simp)
  | Except.ok _, Except.error _ => isFalse (by simp)
  | Except.error _, Except.ok _ => isFalse (by simp)

instance : DecidablePred tripleInRange := fun t => by
  unfold tripleInRange
  infer_instance

/-- Relation between the results of one `player_moves` call under two
collaborators: both panic or run out of fuel, or both succeed with the same
index, board and events, and collaborator states related by `R`. -/
def MovesRel {σ1 σ2 : Type} (R : σ1 → σ2 → Prop) :
    Option (Nat × Board × σ1 × List Event) →
      Option (Nat × Board × σ2 × List Event) → Prop
  | none, none => True
  | some r1, some r2 =>
      r1.1 = r2.1 ∧ r1.2.1 = r2.2.1 ∧ R r1.2.2.1 r2.2.2.1 ∧
        r1.2.2.2 = r2.2.2.2
  | _, _ => False

/-- Relation between the results of `runLoop`/`run` under two collaborators:
both fail, or both succeed with identical event traces and `R`-related final
collaborator states. -/
def RunRel {σ1 σ2 : Type} (R : σ1 → σ2 → Prop) :
    Option (σ1 × List Event) → Option (σ2 × List Event) → Prop
  | none, none => True
  | some r1, some r2 => R r1.1 r2.1 ∧ r1.2 = r2.2
  | _, _ => False

/-! Helper lemmas about lookups, updates and well-formedness. -/

theorem lookup_cons_self (a : Nat) (w : TileState) (l : List (Nat × TileState)) :
    List.lookup a ((a, w) :: l) = some w := by
  simp [List.lookup]

theorem lookup_cons_ne (a k : Nat) (w : TileState) (l : List (Nat × TileState))
    (h : k ≠ a) : List.lookup k ((a, w) :: l) = List.lookup k l := by
  have hb : (k == a) = false := by simpa using h
  simp [List.lookup, hb]

theorem lookup_update (l : List (Nat × TileState)) (i k : Nat) (v : TileState) :
    (l.map fun p => if p.1 = i then (i, v) else p).lookup k =
      if k = i then (l.lookup i).map (fun _ => v) else l.lookup k := by
  induction l with
  | nil => by_cases hk : k = i <;> simp [hk, List.lookup]
  | cons p l ih =>
      obtain ⟨a, w⟩ := p
      simp only [List.map_cons]
      by_cases hai : a = i
      · subst hai
        rw [if_pos rfl]
        by_cases hk : k = a
        · subst hk
          simp [lookup_cons_self]
        · rw [lookup_cons_ne _ _ _ _ hk, lookup_cons_ne _ _ _ _ hk, ih,
            if_neg hk, if_neg hk]
      · rw [if_neg hai]
        by_cases hk : k = a
        · subst hk
          have hki : k ≠ i := fun h => hai h
          rw [lookup_cons_self, lookup_cons_self, if_neg hki]
        · rw [lookup_cons_ne _ _ _ _ hk, lookup_cons_ne _ _ _ _ hk,
            lookup_cons_ne _ _ _ _ (fun h => hai h.symm), ih]

theorem Board.getTile_update (b : Board) (i k : Nat) (v : TileState) :
    (b.update i v).getTile k =
      if k = i then (b.getTile i).map (fun _ => v) else b.getTile k :=
  lookup_update b.tiles i k v

theorem Board.getTile_update_self (b : Board) (i : Nat) (v : TileState) :
    (b.update i v).getTile i = (b.getTile i).map (fun _ => v) := by
  rw [Board.getTile_update, if_pos rfl]

theorem Board.getTile_update_ne (b : Board) (i k : Nat) (v : TileState)
    (h : k ≠ i) : (b.update i v).getTile k = b.getTile k := by
  rw [Board.getTile_update, if_neg h]

theorem Board.wf_new : Board.new.WF := by
  intro k
  show (List.lookup k
      [(1, TileState.Empty), (2, TileState.Empty), (3, TileState.Empty),
       (4, TileState.Empty), (5, TileState.Empty), (6, TileState.Empty),
       (7, TileState.Empty), (8, TileState.Empty), (9, TileState.Empty)]).isSome
      ↔ (1 ≤ k ∧ k ≤ 9)
  rcases Nat.lt_or_ge k 10 with h | h
  · interval_cases k <;> decide
  · have h1 : ∀ a : Nat, a ≤ 9 → k ≠ a := by omega
    rw [lookup_cons_ne _ _ _ _ (h1 1 (by omega)),
      lookup_cons_ne _ _ _ _ (h1 2 (by omega)),
      lookup_cons_ne _ _ _ _ (h1 3 (by omega)),
      lookup_cons_ne _ _ _ _ (h1 4 (by omega)),
      lookup_cons_ne _ _ _ _ (h1 5 (by omega)),
      lookup_cons_ne _ _ _ _ (h1 6 (by omega)),
      lookup_cons_ne _ _ _ _ (h1 7 (by omega)),
      lookup_cons_ne _ _ _ _ (h1 8 (by omega)),
      lookup_cons_ne _ _ _ _ (h1 9 (by omega))]
    simp [List.lookup]
    omega

theorem Board.WF.update {b : Board} (h : b.WF) (i : Nat) (v : TileState) :
    (b.update i v).WF := by
  intro k
  rw [Board.getTile_update]
  by_cases hk : k = i
  · subst hk
    rw [if_pos rfl]
    have hm : (Option.map (fun _ => v) (b.getTile k)).isSome = (b.getTile k).isSome := by
      cases b.getTile k <;> rfl
    rw [hm]
    exact h k
  · rw [if_neg hk]
    exact h k

theorem Board.set_tile_ok {b b1 : Board} {i j : Nat} {s : Sign}
    (h : b.set_tile i s = some (Except.ok j, b1)) :
    j = i ∧ b.getTile i = some TileState.Empty ∧
      b1 = b.update i (TileState.Marked s) := by
  unfold Board.set_tile at h
  rcases hg : b.getTile i with _ | ts
  · rw [hg] at h
    exact absurd h (by simp)
  · rw [hg] at h
    cases ts with
    | Marked s0 => exact absurd h (by simp)
    | Empty =>
        simp only [Option.some.injEq, Prod.mk.injEq, Except.ok.injEq] at h
        exact ⟨h.1.symm, rfl, h.2.symm⟩

theorem Board.set_tile_error {b b1 : Board} {i : Nat} {s : Sign} {e : String}
    (h : b.set_tile i s = some (Except.error e, b1)) :
    b1 = b ∧ e = tileAlreadyMarkedMsg ∧
      ∃ s0, b.getTile i = some (TileState.Marked s0) := by
  unfold Board.set_tile at h
  rcases hg : b.getTile i with _ | ts
  · rw [hg] at h
    exact absurd h (by simp)
  · rw [hg] at h
    cases ts with
    | Empty => exact absurd h (by simp)
    | Marked s0 =>
        simp only [Option.some.injEq, Prod.mk.injEq, Except.error.injEq] at h
        exact ⟨h.2.symm, h.1.symm, s0, rfl⟩

theorem Board.set_tile_some_step {b b1 : Board} {i : Nat} {s : Sign}
    {r : Except String Nat} (h : b.set_tile i s = some (r, b1)) :
    (b.WF → b1.WF) ∧
      ∀ k s0, b.getTile k = some (TileState.Marked s0) →
        b1.getTile k = some (TileState.Marked s0) := by
  cases r with
  | ok j =>
      obtain ⟨-, hemp, rfl⟩ := Board.set_tile_ok h
      refine ⟨fun hw => hw.update i _, fun k s0 hm => ?_⟩
      by_cases hk : k = i
      · subst hk
        rw [hm] at hemp
        exact absurd hemp (by simp)
      · rw [Board.getTile_update_ne _ _ _ _ hk]
        exact hm
  | error e =>
      obtain ⟨rfl, -, -⟩ := Board.set_tile_error h
      exact ⟨fun hw => hw, fun k s0 hm => hm⟩

/-! Lemmas for the `get_winner` refinement (C1). -/

theorem layoutWinner_wf {b : Board} (hw : b.WF) {t : Nat × Nat × Nat}
    (ht : tripleInRange t) :
    b.layoutWinner t = some (tripleSpecWin b t) := by
  obtain ⟨h1, h2, h3⟩ := ht
  obtain ⟨ts1, e1⟩ := Option.isSome_iff_exists.mp ((hw t.1).mpr h1)
  obtain ⟨ts2, e2⟩ := Option.isSome_iff_exists.mp ((hw t.2.1).mpr h2)
  obtain ⟨ts3, e3⟩ := Option.isSome_iff_exists.mp ((hw t.2.2).mpr h3)
  simp only [Board.layoutWinner, tripleSpecWin, allMarkedWith, e1, e2, e3]
  clear e1 e2 e3 hw
  revert ts1 ts2 ts3
  decide

theorem getWinnerLoop_spec {b : Board} (hw : b.WF) :
    ∀ ts : List (Nat × Nat × Nat), (∀ t ∈ ts, tripleInRange t) →
      b.getWinnerLoop ts = some (ts.findSome? (tripleSpecWin b)) := by
  intro ts
  induction ts with
  | nil => intro _; rfl
  | cons t ts ih =>
      intro hmem
      have ht := hmem t (by simp)
      have hrest : ∀ u ∈ ts, tripleInRange u := fun u hu => hmem u (by simp [hu])
      simp only [Board.getWinnerLoop, layoutWinner_wf hw ht, List.findSome?_cons]
      cases hv : tripleSpecWin b t with
      | none => simpa [hv] using ih hrest
      | some s => simp [hv]

/-! Lemmas for `validate_input` (C4). -/

theorem parseU8_eq_numeral (s : String) :
    parseU8 s =
      match numeralValue s with
      | some v => if v ≤ 255 then some v else none
      | none => none := by
  unfold parseU8 numeralValue
  by_cases h : (numeralDigits s ≠ [] ∧ (numeralDigits s).all Char.isDigit)
  · rw [if_pos h, if_pos h]
  · rw [if_neg h, if_neg h]

theorem validate_input_iff (s : String) (n : Nat) :
    validate_input s = Except.ok n ↔
      (numeralValue (strTrim s) = some n ∧ 1 ≤ n ∧ n ≤ 9) := by
  unfold validate_input
  rw [parseU8_eq_numeral]
  cases h : numeralValue (strTrim s) with
  | none => simp
  | some v =>
      by_cases h255 : v ≤ 255
      · by_cases h19 : 1 ≤ v ∧ v ≤ 9
        · simp only [h255, if_true, h19]
          simp
          omega
        · simp only [h255, if_true]
          simp [h19]
          omega
      · simp only [h255, if_false]
        simp
        omega

/-! Lemmas for the board invariant along move sequences (C8). -/

theorem applyMoves_wf :
    ∀ (ms : List (Nat × Sign)) (b : Board), b.WF →
      ∀ b1, applyMoves b ms = some b1 →
        b1.WF ∧ ∀ k s0, b.getTile k = some (TileState.Marked s0) →
          b1.getTile k = some (TileState.Marked s0) := by
  intro ms
  induction ms with
  | nil =>
      intro b hw b1 h
      obtain rfl : b = b1 := by simpa [applyMoves] using h
      exact ⟨hw, fun k s0 hm => hm⟩
  | cons m ms ih =>
      intro b hw b1 h
      simp only [applyMoves] at h
      rcases hst : b.set_tile m.1 m.2 with _ | ⟨r, b2⟩
      · rw [hst] at h
        exact absurd h (by simp)
      · rw [hst] at h
        obtain ⟨hwf2, hpers2⟩ := Board.set_tile_some_step hst
        obtain ⟨hwf1, hpers1⟩ := ih b2 (hwf2 hw) b1 h
        exact ⟨hwf1, fun k s0 hm => hpers1 k s0 (hpers2 k s0 hm)⟩

/-! Trace-shape lemmas for the run loop (C9). -/

theorem player_moves_events {σ : Type} (I : Interface σ) (player : Player) :
    ∀ fuel b s msg r, player_moves I player fuel b s msg = some r →
      ∀ e ∈ r.2.2.2, isOnEnd e = false := by
  intro fuel
  induction fuel with
  | zero => intro b s msg r h; exact absurd h (by simp [player_moves])
  | succ fuel ih =>
      intro b s msg r h
      simp only [player_moves] at h
      split at h
      · split at h
        · exact absurd h (by simp)
        · rename_i heq
          cases h
          intro e he
          rcases List.mem_cons.mp he with rfl | he2
          · rfl
          · exact ih _ _ _ _ heq e he2
      · split at h
        · exact absurd h (by simp)
        · split at h
          · exact absurd h (by simp)
          · rename_i heq
            cases h
            intro e he
            rcases List.mem_cons.mp he with rfl | he2
            · rfl
            · exact ih _ _ _ _ heq e he2
        · cases h
          intro e he
          rcases List.mem_cons.mp he with rfl | he2
          · rfl
          · rcases List.mem_cons.mp he2 with rfl | he3
            · rfl
            · exact absurd he3 (by simp)

theorem runLoop_trace {σ : Type} (I : Interface σ) :
    ∀ fuel current b s out, runLoop I fuel current b s = some out →
      ∃ pre gs bf, out.2 = pre ++ [Event.onEnd gs, Event.showBoard bf] ∧
        (∀ e ∈ pre, isOnEnd e = false) ∧
        gs ≠ GameState.NotOver ∧ bf.get_game_state = some gs := by
  intro fuel
  induction fuel with
  | zero => intro current b s out h; exact absurd h (by simp [runLoop])
  | succ fuel ih =>
      intro current b s out h
      simp only [runLoop] at h
      split at h
      · exact absurd h (by simp)
      · rename_i gs hgs
        split at h
        · rename_i hnot
          split at h
          · exact absurd h (by simp)
          · rename_i idx b2 s2 evs hpm
            split at h
            · exact absurd h (by simp)
            · rename_i s3 evs2 hrl
              cases h
              obtain ⟨pre, gs2, bf, hsplit, hpre, hne, hgs2⟩ :=
                ih _ _ _ _ hrl
              simp only at hsplit
              refine ⟨Event.showBoard b :: (evs ++ pre), gs2, bf, ?_, ?_,
                hne, hgs2⟩
              · simp [hsplit]
              · intro e he
                rcases List.mem_cons.mp he with rfl | he2
                · rfl
                · rcases List.mem_append.mp he2 with he3 | he3
                  · exact player_moves_events I current fuel b
                      (I.show_board s b) (turnPrompt current)
                      (idx, b2, s2, evs) hpm e he3
                  · exact hpre e he3
        · rename_i hne
          cases h
          exact ⟨[], gs, b, rfl, by simp, hne, hgs⟩

/-! Bisimulation lemmas for `run` (C10). -/

theorem player_moves_sim {σ1 σ2 : Type} {I1 : Interface σ1}
    {I2 : Interface σ2} {R : σ1 → σ2 → Prop} (hsim : SimRel I1 I2 R)
    (player : Player) :
    ∀ fuel b s1 s2 msg, R s1 s2 →
      MovesRel R (player_moves I1 player fuel b s1 msg)
        (player_moves I2 player fuel b s2 msg) := by
  intro fuel
  induction fuel with
  | zero => intro b s1 s2 msg hR; exact trivial
  | succ fuel ih =>
      intro b s1 s2 msg hR
      obtain ⟨hchoose, hret, hplay, hshow, hend⟩ := hsim
      obtain ⟨hstr, hR1⟩ := hret s1 s2 msg hR
      simp only [player_moves]
      rw [hstr]
      cases hv : validate_input (I2.retrieve_input s2 msg).1 with
      | error e =>
          simp only []
          have hrec := ih b (I1.retrieve_input s1 msg).2
            (I2.retrieve_input s2 msg).2 e hR1
          cases h1 : player_moves I1 player fuel b
              (I1.retrieve_input s1 msg).2 e with
          | none =>
              cases h2 : player_moves I2 player fuel b
                  (I2.retrieve_input s2 msg).2 e with
              | none => exact trivial
              | some r2 => rw [h1, h2] at hrec; exact hrec.elim
          | some r1 =>
              cases h2 : player_moves I2 player fuel b
                  (I2.retrieve_input s2 msg).2 e with
              | none => rw [h1, h2] at hrec; exact hrec.elim
              | some r2 =>
                  obtain ⟨i1, b1, t1, e1⟩ := r1
                  obtain ⟨i2, b2, t2, e2⟩ := r2
                  rw [h1, h2] at hrec
                  obtain ⟨hi, hb, hRt, hev⟩ := hrec
                  simp only at hi hb hRt hev
                  subst hi; subst hb; subst hev
                  exact ⟨rfl, rfl, hRt, rfl⟩
      | ok i =>
          simp only []
          cases hst : b.set_tile i player.sign with
          | none => exact trivial
          | some rb =>
              obtain ⟨r, b1⟩ := rb
              cases r with
              | error e =>
                  simp only []
                  have hrec := ih b1 (I1.retrieve_input s1 msg).2
                    (I2.retrieve_input s2 msg).2 e hR1
                  cases h1 : player_moves I1 player fuel b1
                      (I1.retrieve_input s1 msg).2 e with
                  | none =>
                      cases h2 : player_moves I2 player fuel b1
                          (I2.retrieve_input s2 msg).2 e with
                      | none => exact trivial
                      | some r2 => rw [h1, h2] at hrec; exact hrec.elim
                  | some r1 =>
                      cases h2 : player_moves I2 player fuel b1
                          (I2.retrieve_input s2 msg).2 e with
                      | none => rw [h1, h2] at hrec; exact hrec.elim
                      | some r2 =>
                          obtain ⟨i1, b2, t1, e1⟩ := r1
                          obtain ⟨i2, b3, t2, e2⟩ := r2
                          rw [h1, h2] at hrec
                          obtain ⟨hi, hb, hRt, hev⟩ := hrec
                          simp only at hi hb hRt hev
                          subst hi; subst hb; subst hev
                          exact ⟨rfl, rfl, hRt, rfl⟩
              | ok idx =>
                  exact ⟨rfl, rfl, hplay _ _ player idx hR1, rfl⟩

theorem runLoop_sim {σ1 σ2 : Type} {I1 : Interface σ1} {I2 : Interface σ2}
    {R : σ1 → σ2 → Prop} (hsim : SimRel I1 I2 R) :
    ∀ fuel current b s1 s2, R s1 s2 →
      RunRel R (runLoop I1 fuel current b s1)
        (runLoop I2 fuel current b s2) := by
  intro fuel
  induction fuel with
  | zero => intro current b s1 s2 hR; exact trivial
  | succ fuel ih =>
      intro current b s1 s2 hR
      simp only [runLoop]
      cases hgs : b.get_game_state with
      | none => exact trivial
      | some gs =>
          simp only []
          by_cases hnot : gs = GameState.NotOver
          · rw [if_pos hnot, if_pos hnot]
            have hshow := hsim.2.2.2.1 s1 s2 b hR
            have hpm := player_moves_sim hsim current fuel b
              (I1.show_board s1 b) (I2.show_board s2 b) (turnPrompt current)
              hshow
            cases h1 : player_moves I1 current fuel b (I1.show_board s1 b)
                (turnPrompt current) with
            | none =>
                cases h2 : player_moves I2 current fuel b
                    (I2.show_board s2 b) (turnPrompt current) with
                | none => exact trivial
                | some r2 => rw [h1, h2] at hpm; exact hpm.elim
            | some r1 =>
                cases h2 : player_moves I2 current fuel b
                    (I2.show_board s2 b) (turnPrompt current) with
                | none => rw [h1, h2] at hpm; exact hpm.elim
                | some r2 =>
                    obtain ⟨i1, b1, t1, e1⟩ := r1
                    obtain ⟨i2, b2, t2, e2⟩ := r2
                    rw [h1, h2] at hpm
                    obtain ⟨hi, hb, hRt, hev⟩ := hpm
                    simp only at hi hb hRt hev
                    subst hi; subst hb; subst hev
                    simp only []
                    have hrec := ih (nextPlayer current) b1 t1 t2 hRt
                    cases hr1 : runLoop I1 fuel (nextPlayer current) b1 t1 with
                    | none =>
                        cases hr2 : runLoop I2 fuel (nextPlayer current)
                            b1 t2 with
                        | none => exact trivial
                        | some q2 => rw [hr1, hr2] at hrec; exact hrec.elim
                    | some q1 =>
                        cases hr2 : runLoop I2 fuel (nextPlayer current)
                            b1 t2 with
                        | none => rw [hr1, hr2] at hrec; exact hrec.elim
                        | some q2 =>
                            obtain ⟨u1, f1⟩ := q1
                            obtain ⟨u2, f2⟩ := q2
                            rw [hr1, hr2] at hrec
                            obtain ⟨hRu, hf⟩ := hrec
                            simp only at hRu hf
                            subst hf
                            exact ⟨hRu, rfl⟩
          · rw [if_neg hnot, if_neg hnot]
            exact ⟨hsim.2.2.2.1 _ _ b (hsim.2.2.2.2 s1 s2 gs hR), rfl⟩

/-! The claims. -/

/-- C1: for every (well-formed) board, `get_winner` scans exactly the eight
fixed winning triples (1,2,3), (4,5,6), (7,8,9), (1,4,7), (2,5,8), (3,6,9),
(1,5,9), (3,5,7) in that listed order, returns the sign of the first triple
whose three cells are all Marked with the same sign, and returns no winner
when no triple matches — that is, it computes `winnerSpec`. -/
theorem claim_C1_get_winner_first_matching_triple (b : Board) (hw : b.WF) :
    b.get_winner = some (winnerSpec b) := by
  have hl : winningTriples = layouts := rfl
  unfold Board.get_winner winnerSpec
  rw [hl, getWinnerLoop_spec hw layouts (by decide)]

/-- Witness for C1 at the fresh board. -/
theorem claim_C1_witness :
    Board.new.get_winner = some (winnerSpec Board.new) :=
  claim_C1_get_winner_first_matching_triple Board.new Board.wf_new

/-- C2: for every board, `get_game_state` returns `Won sign` whenever
`get_winner` finds a winner; otherwise `Full` when `is_full` holds;
otherwise `NotOver`.  In particular the win check takes precedence over
fullness: a board that is both full and has a winning triple is classified
`Won`, not `Full`. -/
theorem claim_C2_game_state_classification (b : Board) :
    (∀ s, b.get_winner = some (some s) →
        b.get_game_state = some (GameState.Won s)) ∧
    (b.get_winner = some none → b.is_full = true →
        b.get_game_state = some GameState.Full) ∧
    (b.get_winner = some none → b.is_full = false →
        b.get_game_state = some GameState.NotOver) ∧
    (∀ s, b.is_full = true → b.get_winner = some (some s) →
        b.get_game_state = some (GameState.Won s)) := by
  refine ⟨?_, ?_, ?_, ?_⟩
  · intro s h
    simp [Board.get_game_state, h]
  · intro h hf
    simp [Board.get_game_state, h, hf]
  · intro h hf
    simp [Board.get_game_state, h, hf]
  · intro s _ h
    simp [Board.get_game_state, h]

/-- Witness for C2 at a board that is both full and has a winning triple:
it is classified Won, not Full. -/
theorem claim_C2_witness :
    (⟨[(1, TileState.Marked Sign.O), (2, TileState.Marked Sign.O),
       (3, TileState.Marked Sign.O), (4, TileState.Marked Sign.X),
       (5, TileState.Marked Sign.X), (6, TileState.Marked Sign.O),
       (7, TileState.Marked Sign.O), (8, TileState.Marked Sign.X),
       (9, TileState.Marked Sign.X)]⟩ : Board).get_game_state =
      some (GameState.Won Sign.O) :=
  (claim_C2_game_state_classification _).2.2.2 Sign.O (by decide) (by decide)

/-- C3: for an index in 1..9, `set_tile` on an Empty cell marks it with the
given sign and returns success carrying the index, leaving every other cell
unchanged; on an already Marked cell (any sign) it fails with the
already-marked error and returns the entire board unchanged. -/
theorem claim_C3_set_tile_success_and_failure (b : Board) (i : Nat) (s : Sign)
    (_hlo : 1 ≤ i) (_hhi : i ≤ 9) :
    (b.getTile i = some TileState.Empty →
      ∃ b1, b.set_tile i s = some (Except.ok i, b1) ∧
        b1.getTile i = some (TileState.Marked s) ∧
        ∀ j, j ≠ i → b1.getTile j = b.getTile j) ∧
    (∀ s0, b.getTile i = some (TileState.Marked s0) →
      b.set_tile i s = some (Except.error tileAlreadyMarkedMsg, b)) := by
  constructor
  · intro hemp
    refine ⟨b.update i (TileState.Marked s), ?_, ?_, ?_⟩
    · simp [Board.set_tile, hemp]
    · rw [Board.getTile_update_self, hemp]
      rfl
    · intro j hj
      exact Board.getTile_update_ne _ _ _ _ hj
  · intro s0 hm
    simp [Board.set_tile, hm]

/-- Witness for C3: marking empty cell 5 of a fresh board succeeds, and
marking an already marked cell fails leaving the board unchanged. -/
theorem claim_C3_witness :
    (∃ b1, Board.new.set_tile 5 Sign.O = some (Except.ok 5, b1) ∧
      b1.getTile 5 = some (TileState.Marked Sign.O) ∧
      ∀ j, j ≠ 5 → b1.getTile j = Board.new.getTile j) ∧
    (⟨[(5, TileState.Marked Sign.X)]⟩ : Board).set_tile 5 Sign.O =
      some (Except.error tileAlreadyMarkedMsg,
        (⟨[(5, TileState.Marked Sign.X)]⟩ : Board)) :=
  ⟨(claim_C3_set_tile_success_and_failure Board.new 5 Sign.O (by decide)
      (by decide)).1 (by decide),
   (claim_C3_set_tile_success_and_failure ⟨[(5, TileState.Marked Sign.X)]⟩ 5
      Sign.O (by decide) (by decide)).2 Sign.X (by decide)⟩

/-- C4 counterexample: the claim says `validate_input` succeeds exactly when
the trimmed string is one of "1".."9", but the input "05" is accepted
(parsed to 5) although its trimmed form is not one of those nine strings. -/
theorem claim_C4_counterexample_leading_zero :
    validate_input "05" = Except.ok 5 ∧
    (strTrim "05" ∈ ["1", "2", "3", "4", "5", "6", "7", "8", "9"] → False) := by
  decide

/-- C4 (amended): `validate_input` trims surrounding whitespace and succeeds,
returning the parsed value, exactly when the trimmed string is an
unsigned-integer numeral (optional leading `+`, then decimal digits — this
includes non-canonical forms such as "05") whose value lies in 1..9; in
particular it accepts "1".."9" and rejects "0", "10", non-numeric text and
empty text with the number-between-1-and-9 error. -/
theorem claim_C4_validate_input_amended :
    (∀ s n, validate_input s = Except.ok n ↔
        (numeralValue (strTrim s) = some n ∧ 1 ≤ n ∧ n ≤ 9)) ∧
    validate_input "1" = Except.ok 1 ∧ validate_input "2" = Except.ok 2 ∧
    validate_input "3" = Except.ok 3 ∧ validate_input "4" = Except.ok 4 ∧
    validate_input "5" = Except.ok 5 ∧ validate_input "6" = Except.ok 6 ∧
    validate_input "7" = Except.ok 7 ∧ validate_input "8" = Except.ok 8 ∧
    validate_input "9" = Except.ok 9 ∧
    validate_input " 7 " = Except.ok 7 ∧
    validate_input "0" = Except.error invalidNumberMsg ∧
    validate_input "10" = Except.error invalidNumberMsg ∧
    validate_input "yo" = Except.error invalidNumberMsg ∧
    validate_input "" = Except.error invalidNumberMsg :=
  ⟨validate_input_iff, by decide, by decide, by decide, by decide, by decide,
   by decide, by decide, by decide, by decide, by decide, by decide,
   by decide, by decide, by decide⟩

/-- C5: on a well-formed board, calling `set_tile` with an index outside the
fixed 1..9 key range hits the vacant-entry branch, which is a panic (`none`),
not a recoverable error value; with an index inside 1..9 the call always
returns normally, so the panic branch is unreachable under the validator's
precondition. -/
theorem claim_C5_out_of_range_panics (b : Board) (i : Nat) (s : Sign)
    (hw : b.WF) :
    (¬(1 ≤ i ∧ i ≤ 9) → b.set_tile i s = none) ∧
    ((1 ≤ i ∧ i ≤ 9) → ∃ r b1, b.set_tile i s = some (r, b1)) := by
  constructor
  · intro h
    have hnone : b.getTile i = none := by
      rcases hg : b.getTile i with _ | ts
      · rfl
      · exact absurd ((hw i).mp (by simp [hg])) h
    simp [Board.set_tile, hnone]
  · intro h
    obtain ⟨ts, hts⟩ := Option.isSome_iff_exists.mp ((hw i).mpr h)
    cases ts with
    | Empty =>
        exact ⟨Except.ok i, b.update i (TileState.Marked s),
          by simp [Board.set_tile, hts]⟩
    | Marked s0 =>
        exact ⟨Except.error tileAlreadyMarkedMsg, b,
          by simp [Board.set_tile, hts]⟩

/-- Witness for C5 on the fresh board: index 0 panics, index 3 returns. -/
theorem claim_C5_witness :
    Board.new.set_tile 0 Sign.O = none ∧
    ∃ r b1, Board.new.set_tile 3 Sign.X = some (r, b1) :=
  ⟨(claim_C5_out_of_range_panics Board.new 0 Sign.O Board.wf_new).1
      (by decide),
   (claim_C5_out_of_range_panics Board.new 3 Sign.X Board.wf_new).2
      (by decide)⟩

/-- C6: running the game with the first player fixed to O and the inputs
1, 2, 4, 5, 7 (a sixth input 8 being available but never requested) ends
with `on_end` reporting Won O immediately after the fifth successful move:
exactly five inputs are consumed, the sixth is still pending, the events end
with the fifth `on_play`, then `on_end (Won O)`, then the final board
display. -/
theorem claim_C6_left_column_win_scenario :
    (run scriptI 30 ⟨⟨Sign.O⟩, ["1", "2", "4", "5", "7", "8"]⟩).map
        (fun r => (r.1.inputs, retrieveCount r.2, onEndStates r.2,
                   r.2.drop (r.2.length - 3))) =
      some (["8"], 5, [GameState.Won Sign.O],
            [Event.onPlay ⟨Sign.O⟩ 7,
             Event.onEnd (GameState.Won Sign.O),
             Event.showBoard ⟨[(1, TileState.Marked Sign.O),
               (2, TileState.Marked Sign.X), (3, TileState.Empty),
               (4, TileState.Marked Sign.O), (5, TileState.Marked Sign.X),
               (6, TileState.Empty), (7, TileState.Marked Sign.O),
               (8, TileState.Empty), (9, TileState.Empty)]⟩]) := by
  rfl

/-- C7: within a single turn, `player_moves` behaves exactly like the
spec's retry loop `specRetry`: each validation or cell-occupied failure
re-requests input using that failure's specific error message as the prompt,
repeating until a move succeeds, with no board change on any failed attempt.
In particular a turn fed "x", then "0", then "5" (cell 5 empty) issues
exactly two re-prompts, both with the validation error message, and then
applies the move on cell 5. -/
theorem claim_C7_retry_loop :
    (∀ (σ : Type) (I : Interface σ) (player : Player) (fuel : Nat)
        (b : Board) (s : σ) (msg : String),
        player_moves I player fuel b s msg = specRetry I player fuel b s msg) ∧
    player_moves scriptI ⟨Sign.O⟩ 10 Board.new
        ⟨⟨Sign.O⟩, ["x", "0", "5"]⟩ (turnPrompt ⟨Sign.O⟩) =
      some (5,
        ⟨[(1, TileState.Empty), (2, TileState.Empty), (3, TileState.Empty),
          (4, TileState.Empty), (5, TileState.Marked Sign.O),
          (6, TileState.Empty), (7, TileState.Empty), (8, TileState.Empty),
          (9, TileState.Empty)]⟩,
        ⟨⟨Sign.O⟩, []⟩,
        [Event.retrieveInput (turnPrompt ⟨Sign.O⟩) "x",
         Event.retrieveInput invalidNumberMsg "0",
         Event.retrieveInput invalidNumberMsg "5",
         Event.onPlay ⟨Sign.O⟩ 5]) := by
  constructor
  · intro σ I player fuel
    induction fuel with
    | zero => intro b s msg; rfl
    | succ fuel ih =>
        intro b s msg
        simp only [player_moves, specRetry, specAttempt]
        split
        · rw [ih]
        · split
          · rfl
          · rename_i heq
            obtain ⟨rfl, -, -⟩ := Board.set_tile_error heq
            rw [ih]
          · rfl
  · rfl

/-- C8: starting from `new()` (or any well-formed board), any sequence of
`set_tile` calls that returns normally keeps the key set exactly {1,...,9},
and no cell ever transitions from Marked back to Empty or to the other sign:
Marked cells persist with their original sign. -/
theorem claim_C8_key_set_and_marked_terminal :
    Board.new.WF ∧
    ∀ (b : Board), b.WF → ∀ (ms : List (Nat × Sign)) (b1 : Board),
      applyMoves b ms = some b1 →
        b1.WF ∧ ∀ k s0, b.getTile k = some (TileState.Marked s0) →
          b1.getTile k = some (TileState.Marked s0) :=
  ⟨Board.wf_new, fun b hw ms b1 h => applyMoves_wf ms b hw b1 h⟩

/-- Witness for C8: one move on a fresh board. -/
theorem claim_C8_witness :
    ∃ b1, applyMoves Board.new [(1, Sign.O)] = some b1 ∧
      (b1.WF ∧ ∀ k s0, Board.new.getTile k = some (TileState.Marked s0) →
        b1.getTile k = some (TileState.Marked s0)) :=
  ⟨_, rfl, claim_C8_key_set_and_marked_terminal.2 Board.new Board.wf_new
    [(1, Sign.O)] _ rfl⟩

/-- C9: in every terminating execution of `run`, `on_end` is called exactly
once, after the game loop has exited, with the final game state (never
`NotOver`), and it is followed by exactly one final `show_board` as the very
last collaborator call. -/
theorem claim_C9_on_end_once_then_show_board {σ : Type} (I : Interface σ)
    (fuel : Nat) (st : σ) (out : σ × List Event)
    (h : run I fuel st = some out) :
    ∃ pre gs bf, out.2 = pre ++ [Event.onEnd gs, Event.showBoard bf] ∧
      (∀ e ∈ pre, isOnEnd e = false) ∧
      gs ≠ GameState.NotOver ∧ bf.get_game_state = some gs := by
  simp only [run] at h
  split at h
  · exact absurd h (by simp)
  · rename_i s1 evs heq
    cases h
    obtain ⟨pre, gs, bf, hsplit, hpre, hne, hgs⟩ :=
      runLoop_trace I fuel _ _ _ _ heq
    simp only at hsplit
    refine ⟨Event.chooseFirstPlayer (I.choose_first_player st).1 :: pre,
      gs, bf, ?_, ?_, hne, hgs⟩
    · simp [hsplit]
    · intro e he
      rcases List.mem_cons.mp he with rfl | he2
      · rfl
      · exact hpre e he2

/-- Witness for C9 on a scripted five-move game. -/
theorem claim_C9_witness :
    ∃ out, run scriptI 30 ⟨⟨Sign.O⟩, ["1", "2", "4", "5", "7"]⟩ = some out ∧
      ∃ pre gs bf, out.2 = pre ++ [Event.onEnd gs, Event.showBoard bf] ∧
        (∀ e ∈ pre, isOnEnd e = false) ∧
        gs ≠ GameState.NotOver ∧ bf.get_game_state = some gs :=
  ⟨_, rfl, claim_C9_on_end_once_then_show_board scriptI 30
    ⟨⟨Sign.O⟩, ["1", "2", "4", "5", "7"]⟩ _ rfl⟩

/-- C10: `run` is deterministic relative to its collaborator: two
executions whose collaborators choose the same first player and answer every
input request with the same string (captured by a similarity relation on
their states) produce identical sequences of collaborator calls — the same
boards to `show_board`, the same player and index to `on_play`, and the same
final game state to `on_end`. -/
theorem claim_C10_run_deterministic {σ1 σ2 : Type} (I1 : Interface σ1)
    (I2 : Interface σ2) (R : σ1 → σ2 → Prop) (hsim : SimRel I1 I2 R)
    (fuel : Nat) (s1 : σ1) (s2 : σ2) (hR : R s1 s2) :
    Option.map Prod.snd (run I1 fuel s1) =
      Option.map Prod.snd (run I2 fuel s2) := by
  obtain ⟨hpeq, hR1⟩ := hsim.1 s1 s2 hR
  have hrel := runLoop_sim hsim fuel (I2.choose_first_player s2).1
    Board.new _ _ hR1
  simp only [run]
  rw [hpeq]
  cases h1 : runLoop I1 fuel (I2.choose_first_player s2).1 Board.new
      (I1.choose_first_player s1).2 with
  | none =>
      cases h2 : runLoop I2 fuel (I2.choose_first_player s2).1 Board.new
          (I2.choose_first_player s2).2 with
      | none => rfl
      | some q2 =>
          rw [h1, h2] at hrel
          exact hrel.elim
  | some q1 =>
      cases h2 : runLoop I2 fuel (I2.choose_first_player s2).1 Board.new
          (I2.choose_first_player s2).2 with
      | none =>
          rw [h1, h2] at hrel
          exact hrel.elim
      | some q2 =>
          obtain ⟨u1, f1⟩ := q1
          obtain ⟨u2, f2⟩ := q2
          rw [h1, h2] at hrel
          obtain ⟨hRu, hf⟩ := hrel
          simp only at hRu hf
          subst hf
          rfl

/-- Witness for C10: the scripted collaborator is similar to itself along
equality of states, so two identical executions yield the same trace. -/
theorem claim_C10_witness :
    Option.map Prod.snd (run scriptI 5 ⟨⟨Sign.O⟩, ["3"]⟩) =
      Option.map Prod.snd (run scriptI 5 ⟨⟨Sign.O⟩, ["3"]⟩) :=
  claim_C10_run_deterministic scriptI scriptI Eq
    (by
      refine ⟨fun a b h => ?_, fun a b m h => ?_, fun a b p i h => ?_,
        fun a b c h => ?_, fun a b g h => ?_⟩ <;> subst h
      · exact ⟨rfl, rfl⟩
      · exact ⟨rfl, rfl⟩
      · rfl
      · rfl
      · rfl)
    5 ⟨⟨Sign.O⟩, ["3"]⟩ ⟨⟨Sign.O⟩, ["3"]⟩ rfl

end Tictactoe
